import Mathlib

/-!
Verification of the message-transfer plugin (`main.py`, `webhook.py`).

The Python store keeps each collection as a JSON object, i.e. an
insertion-ordered dictionary with unique string keys.  We embed each
collection as an association list `List (key × value)`; every store
method loads the collection, transforms it and saves it back, so each
operation is a pure function from the collection (plus arguments) to the
updated collection together with an `Except` value modelling the raised
exception (`KeyError` / `ValueError`).  When a method raises before
saving, the returned collection equals the input one, matching the file
on disk being untouched.
-/

namespace MsgTransfer

/-- A forwarding rule as persisted in `rules.json`:
`{id: {"source_umo": ..., "target_umo": ...}}`. -/
structure Rule where
  source_umo : String
  target_umo : String
deriving DecidableEq, Repr

/-- The rules collection: Python dict `id -> rule`. -/
abbrev Rules := List (String × Rule)

/-- The pending-binding collection: Python dict `code -> source_umo`. -/
abbrev Pending := List (String × String)

/-- Errors raised by the store operations: `KeyError` (NotFound) and the
`ValueError("规则已存在 #rid")` duplicate-rule error (Conflict). -/
inductive StoreErr where
  | notFound
  | conflict (rid : String)
deriving DecidableEq, Repr

/-- Python `str.split` with a single-character separator: the list of
groups between occurrences of the separator (`"".split(c)` gives `[""]`,
and adjacent separators give empty groups). -/
def splitChars (sep : Char) : List Char → List (List Char)
  | [] => [[]]
  | c :: cs =>
    if c = sep then
      [] :: splitChars sep cs
    else
      match splitChars sep cs with
      | [] => [[c]]
      | g :: gs => (c :: g) :: gs

/-- The decimal value of a digit string, most significant digit first. -/
def charsNat (l : List Char) : Nat :=
  l.foldl (fun n c => n * 10 + (c.toNat - '0'.toNat)) 0

/-- Whether a character list is a nonempty string of decimal digits. -/
def isDigits (l : List Char) : Bool :=
  !l.isEmpty && l.all (fun c => c.isDigit)

/-- `int(k)` applied to a rule key, as used by `add_rule` via
`max(map(int, data.keys()), default=0)`.  All keys ever created by
`add_rule` are decimal strings, on which this agrees with Python `int`. -/
def keyNat (s : String) : Nat :=
  if isDigits s.data then charsNat s.data else 0

/-- `max(map(int, data.keys()), default=0)` from `add_rule`. -/
def maxId (rules : Rules) : Nat :=
  rules.foldl (fun m p => max m (keyNat p.1)) 0

/-- The duplicate-check loop of `MsgTransferStore.add_rule`: the id of the
first stored rule with the same `(source_umo, target_umo)` pair, if any. -/
def findDup (rules : Rules) (s t : String) : Option String :=
  (rules.find? (fun p => p.2.source_umo == s && p.2.target_umo == t)).map (fun p => p.1)

/-- `MsgTransferStore.add_rule`.  On a duplicate `(source, target)` pair it
raises `ValueError` before saving, so the collection is unchanged;
otherwise it appends the new rule under id `str(max(int keys) + 1)`. -/
def add_rule (rules : Rules) (s t : String) : Rules × Except StoreErr String :=
  match findDup rules s t with
  | some rid => (rules, .error (.conflict rid))
  | none =>
    (rules ++ [(toString (maxId rules + 1), ⟨s, t⟩)], .ok (toString (maxId rules + 1)))

/-- `MsgTransferStore.delete_rule`: `KeyError` when the id is absent,
otherwise `data.pop(rid)` and save. -/
def delete_rule (rules : Rules) (rid : String) : Rules × Except StoreErr Unit :=
  if rules.any (fun p => p.1 == rid) then
    (rules.filter (fun p => p.1 ≠ rid), .ok ())
  else
    (rules, .error .notFound)

/-- `MsgTransferStore.pop_pending`: `KeyError` (code absent or already
consumed) leaves the collection untouched; otherwise the entry is popped
and the stored source conversation id returned. -/
def pop_pending (p : Pending) (code : String) : Pending × Except StoreErr String :=
  match p.lookup code with
  | none => (p, .error .notFound)
  | some v => (p.filter (fun q => q.1 ≠ code), .ok v)

/-- `MsgTransferStore.add_pending`: Python dict assignment `p[code] = source`. -/
def add_pending (p : Pending) (code source : String) : Pending :=
  if p.any (fun q => q.1 == code) then
    p.map (fun q => if q.1 == code then (code, source) else q)
  else
    p ++ [(code, source)]

/-- The two collections touched by the bind handshake. -/
structure Store where
  pending : Pending
  rules : Rules
deriving DecidableEq, Repr

/-- `MsgTransfer.cmd_bind` (the `mt bind` handler), restricted to its store
effects: `pop_pending` then `add_rule`; every exception is caught and
reported as a failure.  The Discord webhook auto-provisioning that follows
a successful `add_rule` is external I/O and does not touch these two
collections.  Note that `pop_pending` saves the popped collection before
`add_rule` runs, so a Conflict raised by `add_rule` leaves the pending
entry consumed. -/
def cmd_bind (st : Store) (code target : String) : Store × Except StoreErr String :=
  match pop_pending st.pending code with
  | (_, .error e) => (st, .error e)
  | (p2, .ok source) =>
    match add_rule st.rules source target with
    | (r2, .error e) => ({ pending := p2, rules := r2 }, .error e)
    | (r2, .ok rid) => ({ pending := p2, rules := r2 }, .ok rid)

/-- The parse used by `list_rules` on both the query id and each stored
source id: `parts = umo.split(":")`, requiring `len(parts) >= 3` and
reading `parts[0]`, `parts[1]`, `parts[2]`. -/
def parse3 (umo : String) : Option (String × String × String) :=
  match splitChars ':' umo.data with
  | p :: k :: s :: _ => some (⟨p⟩, ⟨k⟩, ⟨s⟩)
  | _ => none

/-- Python `str.endswith`: suffix test on the character sequence. -/
def endsWithStr (s suffix : String) : Bool :=
  List.isSuffixOf suffix.data s.data

/-- The fuzzy-match test of `list_rules` for one stored rule: platform and
message type must be equal, and the scope ids must be equal or related by
`endswith("_" + other)` in either direction.  A query or stored id with
fewer than three `:`-separated parts never fuzzy-matches. -/
def fuzzy_match (query_source rule_source : String) : Bool :=
  match parse3 query_source, parse3 rule_source with
  | some (p, k, s), some (rp, rk, rs) =>
    rp == p && rk == k &&
      (rs == s || endsWithStr rs ("_" ++ s) || endsWithStr s ("_" ++ rs))
  | _, _ => false

/-- `MsgTransferStore.list_rules`: exact matches on the stored source id
first; only when there are none, the fuzzy recovery pass. -/
def list_rules (rules : Rules) (source_umo : String) : Rules :=
  let exact := rules.filter (fun p => p.2.source_umo == source_umo)
  if exact.isEmpty then
    rules.filter (fun p => fuzzy_match source_umo p.2.source_umo)
  else
    exact

/-- Outcome of the HTTP POST inside `send_webhook_message`: the response
status code, or a raised transport exception (caught by the handler). -/
inductive HttpOutcome where
  | status (code : Nat)
  | exn
deriving DecidableEq, Repr

/-- The JSON body `{"content": ..., "username": ..., "avatar_url": ...}`
posted to the webhook endpoint. -/
structure WebhookPayload where
  content : String
  username : String
  avatar_url : String
deriving DecidableEq, Repr

/-- The payload construction in `send_webhook_message`: an empty content
string is replaced by a single zero-width space before the POST. -/
def webhook_payload (content username avatar_url : String) : WebhookPayload :=
  { content := if content == "" then "\u200B" else content
    username := username
    avatar_url := avatar_url }

/-- `DiscordWebhookManager.send_webhook_message`, with the network
modelled by the `HttpOutcome` of the single POST it performs (there is no
retry loop).  Returns the payload it posts together with the reported
success: `True` exactly on status 200, 204 or 201; `False` on any other
status and on any caught exception. -/
def send_webhook_message (username avatar_url content : String) (resp : HttpOutcome) :
    WebhookPayload × Bool :=
  (webhook_payload content username avatar_url,
    match resp with
    | .status c => c == 200 || c == 204 || c == 201
    | .exn => false)

/-- Which delivery path handles the message for one rule. -/
inductive DeliveryPath where
  | webhookOnly
  | direct
deriving DecidableEq, Repr

/-- The delivery decision of `MsgTransfer._forward_single_rule`: when the
rule target has a configured webhook URL, the webhook send is attempted
and, on reported success, direct relay is skipped; on reported failure —
and when no URL is configured — the direct relay step runs. -/
def forward_single_rule_path (webhook_url : Option String) (resp : HttpOutcome)
    (username avatar_url content : String) : DeliveryPath :=
  match webhook_url with
  | some _ =>
    if (send_webhook_message username avatar_url content resp).2 then
      .webhookOnly
    else
      .direct
  | none => .direct

/-- What a read of a persisted JSON file can encounter; the payload type
is the decoded collection. -/
inductive FileRead (α : Type) where
  | absent
  | malformed
  | ioError
  | valid (d : α)

/-- The exceptions `load_json` raises: `ValueError` on
`json.JSONDecodeError`, `RuntimeError` on `OSError` or anything else. -/
inductive LoadErr where
  | valueError
  | runtimeError
deriving DecidableEq, Repr

/-- `load_json` from `main.py`: an absent file yields an empty collection
without raising; malformed JSON raises `ValueError`; an OS error raises
`RuntimeError`. -/
def load_json {α : Type} (empty : α) : FileRead α → Except LoadErr α
  | .absent => .ok empty
  | .malformed => .error .valueError
  | .ioError => .error .runtimeError
  | .valid d => .ok d

/-- `UserMappingManager.load_mappings` from `webhook.py`: an absent file
yields empty mappings, and the bare `except Exception` turns every read
or parse failure into empty mappings as well — nothing is raised.  In the
`valid` case the payload stands for `data.get("mappings", {})`. -/
def load_mappings {α : Type} (empty : α) : FileRead α → α
  | .absent => empty
  | .malformed => empty
  | .ioError => empty
  | .valid d => d

/-- The identity-mapping collection: Python dict
`"src_platform:src_id:dst_platform" -> dst_id`. -/
abbrev Mappings := List (String × String)

/-- Python dict assignment `m[k] = v`: replace in place when the key
exists, append otherwise. -/
def dictSet (m : Mappings) (k v : String) : Mappings :=
  if m.any (fun p => p.1 == k) then
    m.map (fun p => if p.1 == k then (k, v) else p)
  else
    m ++ [(k, v)]

/-- The key format `f"{original_platform}:{original_user_id}:{target_platform}"`. -/
def mapping_key (p u q : String) : String :=
  p ++ ":" ++ u ++ ":" ++ q

/-- `UserMappingManager.add_mapping`. -/
def add_mapping (m : Mappings) (p1 u1 p2 u2 : String) : Mappings :=
  dictSet m (mapping_key p1 u1 p2) u2

/-- `UserMappingManager.get_mapped_user_id`: `mappings.get(key, original_user_id)`. -/
def get_mapped_user_id (m : Mappings) (p u q : String) : String :=
  ((m.lookup (mapping_key p u q))).getD u

/-- Rejoin split groups with `":"`, undoing the splits beyond the second
one: together with `splitChars` this realises `umo.split(":", 2)`. -/
def joinColon : List (List Char) → List Char
  | [] => []
  | [g] => g
  | g :: gs => g ++ ':' :: joinColon gs

/-- `umo.split(":", 2)` unpacked into exactly three names, as in
`format_origin_header`; `none` models the `ValueError` branch. -/
def splitColon2 (umo : String) : Option (String × String × String) :=
  match splitChars ':' umo.data with
  | a :: b :: c :: rest => some (⟨a⟩, ⟨b⟩, ⟨joinColon (c :: rest)⟩)
  | _ => none

/-- The platform friendly-name map of `format_origin_header`. -/
def platformHuman (p : String) : String :=
  if p == "aiocqhttp" then "QQ" else if p == "discord" then "Discord" else p

/-- The message-type friendly name of `format_origin_header`. -/
def msgTypeHuman (msg_type conversation_id : String) : String :=
  if msg_type == "GroupMessage" then "群组（ID: " ++ conversation_id ++ "）消息"
  else if msg_type == "FriendMessage" then "私聊（对方 ID: " ++ conversation_id ++ "）消息"
  else "未知类型（ID: " ++ conversation_id ++ "）消息"

/-- `format_origin_header`, over the event fields it reads
(`get_platform_name`, `get_sender_name`, `get_sender_id`) and the source
conversation id. -/
def format_origin_header (platform sender_name sender_id umo : String) : String :=
  let tc := match splitColon2 umo with
    | some (_, k, c) => (k, c)
    | none => ("Unknown", "Unknown")
  "[转发] " ++ sender_name ++ " (" ++ sender_id ++ ")\n来自 " ++
    platformHuman platform ++ " 的 " ++ msgTypeHuman tc.1 tc.2

/-- The content handed to the host by the direct-relay branch of
`_forward_single_rule`: the header, `"\n\n"` plus a zero-width space,
then the original message content (the `Plain(header)` component followed
by the original chain). -/
def direct_relay_content (platform sender_name sender_id umo original : String) : String :=
  format_origin_header platform sender_name sender_id umo ++ "\n\n\u200B" ++ original

/-- `forward_message` restricted to a sequence of `mt bind`-style rule
additions: applies `add_rule` for each `(source, target)` request in
order and collects the ids of the successful additions. -/
def runAdds : Rules → List (String × String) → Rules × List String
  | rules, [] => (rules, [])
  | rules, (s, t) :: reqs =>
    match add_rule rules s t with
    | (r2, .ok rid) => ((runAdds r2 reqs).1, rid :: (runAdds r2 reqs).2)
    | (r2, .error _) => runAdds r2 reqs

/-! ### Helper lemmas -/

theorem lookup_filter_self {α : Type} (p : List (String × α)) (code : String) :
    (p.filter (fun q => q.1 ≠ code)).lookup code = none := by
  rw [List.lookup_eq_none_iff]
  intro q hq
  have hne := (List.mem_filter.mp hq).2
  simp only [ne_eq, decide_not, Bool.not_eq_eq_eq_not, Bool.not_true, decide_eq_false_iff_not] at hne
  rw [bne_iff_ne]
  exact fun e => hne e.symm

theorem lookup_map_update (m : Mappings) (k v : String)
    (h : m.any (fun p => p.1 == k) = true) :
    (m.map (fun p => if p.1 == k then (k, v) else p)).lookup k = some v := by
  induction m with
  | nil => simp at h
  | cons q m ih =>
    obtain ⟨qk, qv⟩ := q
    by_cases hq : qk = k
    · subst hq
      simp
    · have hb : (qk == k) = false := beq_eq_false_iff_ne.mpr hq
      have hb2 : (k == qk) = false := beq_eq_false_iff_ne.mpr (Ne.symm hq)
      simp only [List.any_cons, hb, Bool.false_or] at h
      simp [hq, List.lookup_cons, hb2]
      simpa using ih h

theorem lookup_dictSet (m : Mappings) (k v : String) :
    (dictSet m k v).lookup k = some v := by
  unfold dictSet
  by_cases h : m.any (fun p => p.1 == k) = true
  · rw [if_pos h]
    exact lookup_map_update m k v h
  · rw [if_neg h]
    have hnone : m.lookup k = none := by
      rw [List.lookup_eq_none_iff]
      intro p hp
      rw [bne_iff_ne]
      intro e
      exact h (List.any_eq_true.mpr ⟨p, hp, beq_iff_eq.mpr e.symm⟩)
    rw [List.lookup_append, hnone]
    simp

theorem pop_pending_of_none (p : Pending) (code : String) (h : p.lookup code = none) :
    pop_pending p code = (p, Except.error StoreErr.notFound) := by
  unfold pop_pending
  rw [h]

theorem pop_pending_of_some (p : Pending) (code v : String) (h : p.lookup code = some v) :
    pop_pending p code = (p.filter (fun q => q.1 ≠ code), Except.ok v) := by
  unfold pop_pending
  rw [h]

/-! ### Claims -/

/-- C2: `send_webhook_message` reports success iff the HTTP status of its
single POST (there is no retry loop) is 200, 201 or 204; any other status
and any caught transport exception is reported as soft failure, and on a
reported failure — as when no webhook URL is configured —
`_forward_single_rule` falls back to the direct-relay step instead of
aborting the delivery for that rule. -/
theorem claim_C2 :
    (∀ u a c n, (send_webhook_message u a c (.status n)).2 = true ↔
      n = 200 ∨ n = 201 ∨ n = 204) ∧
    (∀ u a c, (send_webhook_message u a c .exn).2 = false) ∧
    (∀ u a c url resp, (send_webhook_message u a c resp).2 = false →
      forward_single_rule_path (some url) resp u a c = .direct) ∧
    (∀ u a c resp, forward_single_rule_path none resp u a c = .direct) := by
  refine ⟨?_, ?_, ?_, ?_⟩
  · intro u a c n
    simp only [send_webhook_message, Bool.or_eq_true, beq_iff_eq]
    tauto
  · intro u a c
    rfl
  · intro u a c url resp h
    simp [forward_single_rule_path, h]
  · intro u a c resp
    rfl

/-- C2 witness: a 500 response is a soft failure and routes the rule to
direct relay. -/
theorem claim_C2_witness :
    forward_single_rule_path (some "https://e") (.status 500) "u" "a" "hi" = .direct :=
  claim_C2.2.2.1 "u" "a" "hi" "https://e" (.status 500) rfl

/-- C10: the payload `send_webhook_message` posts never carries an empty
content string: empty formatted content is replaced by a single
zero-width space, and non-empty content is passed through unchanged. -/
theorem claim_C10 : ∀ u a c resp,
    (send_webhook_message u a c resp).1.content ≠ "" ∧
    (c = "" → (send_webhook_message u a c resp).1.content = "\u200B") ∧
    (c ≠ "" → (send_webhook_message u a c resp).1.content = c) := by
  intro u a c resp
  by_cases h : c = ""
  · subst h
    exact ⟨(by decide : ("\u200B" : String) ≠ ""), fun _ => rfl, fun hc => absurd rfl hc⟩
  · have hb : (c == "") = false := by simpa using h
    simp [send_webhook_message, webhook_payload, hb, h]

/-- C10 witness: empty content is replaced by the zero-width space and
content "hi" is posted unchanged. -/
theorem claim_C10_witness :
    (send_webhook_message "u" "a" "" (.status 200)).1.content = "\u200B" ∧
    (send_webhook_message "u" "a" "hi" (.status 200)).1.content = "hi" :=
  ⟨(claim_C10 "u" "a" "" (.status 200)).2.1 rfl,
   (claim_C10 "u" "a" "hi" (.status 200)).2.2 (by decide)⟩

/-- C6 counterexample: the claim covers the identity-mapping collection,
but `UserMappingManager.load_mappings` catches every exception and
silently yields the empty mapping on malformed content — its result type
has no error channel at all, so no diagnosable error reaches the caller. -/
theorem claim_C6_counterexample :
    load_mappings ([] : Mappings) FileRead.malformed = ([] : Mappings) := rfl

/-- C6 as amended: for the collections read through `load_json` (rules,
pending bindings, webhook config) an absent file yields the empty
collection without error and malformed JSON raises `ValueError`; the
identity-mapping collection is read through `load_mappings`, which yields
the empty mapping both when the file is absent and, silently, when its
content is malformed. -/
theorem claim_C6_amended : ∀ (α : Type) (empty : α),
    load_json empty FileRead.absent = Except.ok empty ∧
    load_json empty FileRead.malformed = Except.error LoadErr.valueError ∧
    load_json empty FileRead.ioError = Except.error LoadErr.runtimeError ∧
    load_mappings empty FileRead.absent = empty ∧
    load_mappings empty FileRead.malformed = empty :=
  fun _ _ => ⟨rfl, rfl, rfl, rfl, rfl⟩

/-- C7: after `add_mapping(p1,u1,p2,u2)`, `get_mapped_user_id(p1,u1,p2)`
returns `u2`; and when no mapping is stored under the key of `(p,u,q)`,
`get_mapped_user_id` returns the input user id unchanged. -/
theorem claim_C7 :
    (∀ m p1 u1 p2 u2, get_mapped_user_id (add_mapping m p1 u1 p2 u2) p1 u1 p2 = u2) ∧
    (∀ m p u q, m.lookup (mapping_key p u q) = none → get_mapped_user_id m p u q = u) := by
  constructor
  · intro m p1 u1 p2 u2
    unfold get_mapped_user_id add_mapping
    rw [lookup_dictSet]
    rfl
  · intro m p u q h
    unfold get_mapped_user_id
    rw [h]
    rfl

/-- C7 witness: an unmapped lookup on the empty mapping passes the user
id through. -/
theorem claim_C7_witness : get_mapped_user_id [] "qq" "123" "discord" = "123" :=
  claim_C7.2 [] "qq" "123" "discord" rfl

/-- C9: `pop_pending` is single-use: on a stored code it returns the
stored initiator conversation id and removes the entry, after which the
same code is NotFound; a never-issued code is NotFound and leaves the
collection unchanged. -/
theorem claim_C9 :
    (∀ p code v, p.lookup code = some v →
      pop_pending p code = (p.filter (fun q => q.1 ≠ code), Except.ok v) ∧
      (pop_pending p code).1.lookup code = none ∧
      pop_pending (pop_pending p code).1 code =
        ((pop_pending p code).1, Except.error StoreErr.notFound)) ∧
    (∀ p code, p.lookup code = none →
      pop_pending p code = (p, Except.error StoreErr.notFound)) := by
  constructor
  · intro p code v h
    have h1 := pop_pending_of_some p code v h
    have h2 : (pop_pending p code).1.lookup code = none := by
      rw [h1]
      exact lookup_filter_self p code
    exact ⟨h1, h2, pop_pending_of_none _ code h2⟩
  · intro p code h
    exact pop_pending_of_none p code h

/-- C9 witness: the code "a1b2c3" pops once and is then NotFound. -/
theorem claim_C9_witness :
    pop_pending [("a1b2c3", "A")] "a1b2c3" = ([], Except.ok "A") ∧
    pop_pending ([] : Pending) "a1b2c3" = ([], Except.error StoreErr.notFound) :=
  ⟨((claim_C9.1 [("a1b2c3", "A")] "a1b2c3" "A" rfl).1).trans rfl,
   claim_C9.2 [] "a1b2c3" rfl⟩

theorem endsWithStr_iff (s t : String) : endsWithStr s t = true ↔ ∃ g : String, s = g ++ t := by
  unfold endsWithStr
  rw [List.isSuffixOf_iff_suffix]
  constructor
  · rintro ⟨l, hl⟩
    exact ⟨⟨l⟩, String.ext (by simpa using hl.symm)⟩
  · rintro ⟨g, rfl⟩
    exact ⟨g.data, by simp⟩

/-- The fuzzy-recovery acceptance condition as the spec words it, the
definition `fuzzy_match` is compared against: both ids parse as
`platform:kind:scope` with equal platform and equal kind, and the scopes
are equal or one scope is the other with a prepended `groupid_` segment. -/
def FuzzyAccept (query_source rule_source : String) : Prop :=
  ∃ p k qs rs,
    parse3 query_source = some (p, k, qs) ∧ parse3 rule_source = some (p, k, rs) ∧
    (qs = rs ∨ (∃ g, rs = g ++ "_" ++ qs) ∨ (∃ g, qs = g ++ "_" ++ rs))

theorem fuzzy_match_iff (q s : String) : fuzzy_match q s = true ↔ FuzzyAccept q s := by
  unfold fuzzy_match FuzzyAccept
  cases hq : parse3 q with
  | none => simp
  | some tq =>
    obtain ⟨p, k, qs⟩ := tq
    cases hs : parse3 s with
    | none => simp
    | some ts =>
      obtain ⟨rp, rk, rs⟩ := ts
      constructor
      · intro hb
        simp only [Bool.and_eq_true, Bool.or_eq_true, beq_iff_eq, endsWithStr_iff] at hb
        obtain ⟨⟨hp, hk⟩, hsc⟩ := hb
        subst hp
        subst hk
        refine ⟨rp, rk, qs, rs, rfl, rfl, ?_⟩
        rcases hsc with (h | ⟨g, hg⟩) | ⟨g, hg⟩
        · exact Or.inl h.symm
        · exact Or.inr (Or.inl ⟨g, by rw [hg, String.append_assoc]⟩)
        · exact Or.inr (Or.inr ⟨g, by rw [hg, String.append_assoc]⟩)
      · rintro ⟨p2, k2, qs2, rs2, hq2, hs2, hsc⟩
        obtain ⟨rfl, rfl, rfl⟩ : p = p2 ∧ k = k2 ∧ qs = qs2 := by simpa using hq2
        obtain ⟨rfl, rfl, rfl⟩ : rp = p ∧ rk = k ∧ rs = rs2 := by simpa using hs2
        simp only [Bool.and_eq_true, Bool.or_eq_true, beq_iff_eq, endsWithStr_iff]
        refine ⟨by simp, ?_⟩
        rcases hsc with h | ⟨g, hg⟩ | ⟨g, hg⟩
        · exact Or.inl (Or.inl h.symm)
        · exact Or.inl (Or.inr ⟨g, by rw [hg, String.append_assoc]⟩)
        · exact Or.inr ⟨g, by rw [hg, String.append_assoc]⟩

theorem list_rules_exact (rules : Rules) (q : String)
    (h : rules.filter (fun e => e.2.source_umo == q) ≠ []) :
    list_rules rules q = rules.filter (fun e => e.2.source_umo == q) := by
  unfold list_rules
  rw [if_neg]
  simp [h]

theorem list_rules_fuzzy_mem (rules : Rules) (q : String) (e : String × Rule)
    (h : rules.filter (fun e => e.2.source_umo == q) = []) :
    e ∈ list_rules rules q ↔ e ∈ rules ∧ FuzzyAccept q e.2.source_umo := by
  unfold list_rules
  rw [if_pos (by simp [h])]
  rw [List.mem_filter, fuzzy_match_iff]

/-- A store with one rule whose source id is `"p:GroupMessage:100_200"`. -/
def demoRules : Rules := [("1", ⟨"p:GroupMessage:100_200", "tgt"⟩)]

/-- C1: `list_rules` returns exactly the exact matches on the stored
source field whenever there are any; only when there are none does it
fuzzy-match, returning a rule iff the query id and the stored source id
both parse as `platform:kind:scope` with equal platform and equal kind
and scopes that are equal or related by a prepended `groupid_` segment;
fuzzy matching never returns a rule whose platform or kind differs from
the query's; and rule source `"p:GroupMessage:100_200"` matches query
`"p:GroupMessage:200"` but not query `"q:GroupMessage:200"`. -/
theorem claim_C1 :
    (∀ rules q, rules.filter (fun e => e.2.source_umo == q) ≠ [] →
      list_rules rules q = rules.filter (fun e => e.2.source_umo == q)) ∧
    (∀ rules q e, rules.filter (fun e => e.2.source_umo == q) = [] →
      (e ∈ list_rules rules q ↔ e ∈ rules ∧ FuzzyAccept q e.2.source_umo)) ∧
    (∀ rules q e, rules.filter (fun e => e.2.source_umo == q) = [] →
      e ∈ list_rules rules q →
      ∀ p k qs, parse3 q = some (p, k, qs) →
        ∃ rs, parse3 e.2.source_umo = some (p, k, rs)) ∧
    (list_rules demoRules "p:GroupMessage:200" = demoRules ∧
     list_rules demoRules "q:GroupMessage:200" = []) := by
  refine ⟨list_rules_exact, list_rules_fuzzy_mem, ?_, by decide, by decide⟩
  intro rules q e h hm p k qs hq
  obtain ⟨-, p2, k2, qs2, rs, hq2, hs, -⟩ := (list_rules_fuzzy_mem rules q e h).mp hm
  rw [hq] at hq2
  obtain ⟨rfl, rfl, rfl⟩ := by simpa using hq2.symm
  exact ⟨rs, hs⟩

/-- C1 witness: with an exact match present, `list_rules` returns the
exact-match set. -/
theorem claim_C1_witness :
    list_rules demoRules "p:GroupMessage:100_200" =
      demoRules.filter (fun e => e.2.source_umo == "p:GroupMessage:100_200") :=
  claim_C1.1 demoRules "p:GroupMessage:100_200" (by decide)

/-- C8 counterexample: the direct-relay content for a message "hello"
from sender "Alice" begins with the Chinese-literal header
`"[转发] Alice (42)\n来自 QQ 的 群组（ID: g）消息"` followed by the
zero-width separator, and does not begin with `"[Forward]"` as the claim
states. -/
theorem claim_C8_counterexample :
    direct_relay_content "aiocqhttp" "Alice" "42" "aiocqhttp:GroupMessage:g" "hello" =
      "[转发] Alice (42)\n来自 QQ 的 群组（ID: g）消息\n\n\u200Bhello" ∧
    "[Forward]".data.isPrefixOf
      (direct_relay_content "aiocqhttp" "Alice" "42" "aiocqhttp:GroupMessage:g" "hello").data
      = false :=
  ⟨by decide, by decide⟩

/-- C8 as amended: for every inbound message delivered by direct relay
whose source conversation id parses as `platform:kind:scope`, the content
handed to the host is the synthesized header
`"[转发] {sender_name} ({sender_id})\n来自 {human platform} 的 {human kind}"`
followed by `"\n\n"` and a zero-width separator, followed by the original
message content — the header literals are Chinese (`[转发]` / `来自 … 的 …`),
not the English `[Forward]` / `from` the claim quotes. -/
theorem claim_C8_amended : ∀ platform sender_name sender_id umo original p k c,
    splitColon2 umo = some (p, k, c) →
    direct_relay_content platform sender_name sender_id umo original =
      "[转发] " ++ sender_name ++ " (" ++ sender_id ++ ")\n来自 " ++
        platformHuman platform ++ " 的 " ++ msgTypeHuman k c ++ "\n\n\u200B" ++ original := by
  intro platform sender_name sender_id umo original p k c h
  unfold direct_relay_content format_origin_header
  rw [h]

/-- C8 amended witness: the concrete message of the counterexample,
via the amended theorem. -/
theorem claim_C8_amended_witness :
    direct_relay_content "aiocqhttp" "Alice" "42" "aiocqhttp:GroupMessage:g" "hello" =
      "[转发] " ++ "Alice" ++ " (" ++ "42" ++ ")\n来自 " ++ platformHuman "aiocqhttp" ++
        " 的 " ++ msgTypeHuman "GroupMessage" "g" ++ "\n\n\u200B" ++ "hello" :=
  claim_C8_amended "aiocqhttp" "Alice" "42" "aiocqhttp:GroupMessage:g" "hello"
    "aiocqhttp" "GroupMessage" "g" rfl

theorem findDup_eq_none (rules : Rules) (s t : String)
    (h : ∀ e ∈ rules, ¬(e.2.source_umo = s ∧ e.2.target_umo = t)) :
    findDup rules s t = none := by
  unfold findDup
  rw [Option.map_eq_none', List.find?_eq_none]
  intro e he
  have := h e he
  simp only [Bool.and_eq_true, beq_iff_eq]
  tauto

theorem findDup_eq_some (rules : Rules) (s t : String)
    (h : ∃ e ∈ rules, e.2.source_umo = s ∧ e.2.target_umo = t) :
    ∃ rid, findDup rules s t = some rid := by
  unfold findDup
  obtain ⟨e, he, hs, ht⟩ := h
  have : (rules.find? (fun p => p.2.source_umo == s && p.2.target_umo == t)).isSome := by
    rw [List.find?_isSome]
    exact ⟨e, he, by simp [hs, ht]⟩
  obtain ⟨q, hq⟩ := Option.isSome_iff_exists.mp this
  exact ⟨q.1, by rw [hq]; rfl⟩

theorem add_rule_of_dup (rules : Rules) (s t rid : String)
    (h : findDup rules s t = some rid) :
    add_rule rules s t = (rules, Except.error (StoreErr.conflict rid)) := by
  unfold add_rule
  rw [h]

theorem add_rule_of_fresh (rules : Rules) (s t : String)
    (h : findDup rules s t = none) :
    add_rule rules s t =
      (rules ++ [(toString (maxId rules + 1), ⟨s, t⟩)], Except.ok (toString (maxId rules + 1))) := by
  unfold add_rule
  rw [h]

/-- A store in which the pending code "a1b2c3" points at a source whose
rule to target "B" already exists. -/
def bindDemo : Store :=
  { pending := [("a1b2c3", "A")], rules := [("1", ⟨"A", "B"⟩)] }

/-- C3 counterexample: `mt bind` with a valid pending code whose
(initiator, acceptor) rule already exists fails with Conflict, yet the
pending entry has already been consumed and no rule was created — exactly
the state the claim asserts cannot occur. -/
theorem claim_C3_counterexample :
    (cmd_bind bindDemo "a1b2c3" "B").2 = Except.error (StoreErr.conflict "1") ∧
    (cmd_bind bindDemo "a1b2c3" "B").1.pending = [] ∧
    (cmd_bind bindDemo "a1b2c3" "B").1.rules = bindDemo.rules :=
  ⟨rfl, rfl, rfl⟩

/-- C3 as amended: `mt bind` with an absent or already-consumed code
fails with NotFound and leaves both collections unchanged; with a valid
pending code it first pops the pending entry and then attempts rule
creation: when no identical rule exists the rule initiator→acceptor is
created, and when an identical rule exists it fails with Conflict with
the pending entry already consumed and the rule collection unchanged (the
pop is not rolled back, so the state "pending entry consumed but no rule
created" does occur). -/
theorem claim_C3_amended : ∀ (st : Store) (code target : String),
    (st.pending.lookup code = none →
      cmd_bind st code target = (st, Except.error StoreErr.notFound)) ∧
    (∀ source, st.pending.lookup code = some source →
      ((∀ e ∈ st.rules, ¬(e.2.source_umo = source ∧ e.2.target_umo = target)) →
        ∃ rid, cmd_bind st code target =
          ({ pending := st.pending.filter (fun q => q.1 ≠ code),
             rules := st.rules ++ [(rid, ⟨source, target⟩)] }, Except.ok rid)) ∧
      ((∃ e ∈ st.rules, e.2.source_umo = source ∧ e.2.target_umo = target) →
        ∃ rid, cmd_bind st code target =
          ({ pending := st.pending.filter (fun q => q.1 ≠ code),
             rules := st.rules }, Except.error (StoreErr.conflict rid)))) := by
  intro st code target
  constructor
  · intro h
    unfold cmd_bind
    rw [pop_pending_of_none st.pending code h]
  · intro source h
    constructor
    · intro hfresh
      refine ⟨toString (maxId st.rules + 1), ?_⟩
      unfold cmd_bind
      rw [pop_pending_of_some st.pending code source h]
      dsimp only
      rw [add_rule_of_fresh st.rules source target (findDup_eq_none _ _ _ hfresh)]
    · intro hdup
      obtain ⟨rid, hrid⟩ := findDup_eq_some st.rules source target hdup
      refine ⟨rid, ?_⟩
      unfold cmd_bind
      rw [pop_pending_of_some st.pending code source h]
      dsimp only
      rw [add_rule_of_dup st.rules source target rid hrid]

/-- C3 amended witness: an unknown code is NotFound and changes nothing. -/
theorem claim_C3_amended_witness :
    cmd_bind { pending := [], rules := [] } "zzzzzz" "B" =
      ({ pending := [], rules := [] }, Except.error StoreErr.notFound) :=
  (claim_C3_amended { pending := [], rules := [] } "zzzzzz" "B").1 rfl

/-- No two stored rules share the same (source, target) pair. -/
def NoDupPairs (rules : Rules) : Prop :=
  rules.Pairwise (fun a b => ¬(a.2.source_umo = b.2.source_umo ∧ a.2.target_umo = b.2.target_umo))

theorem add_rule_preserves_noDup (rules : Rules) (s t : String) (h : NoDupPairs rules) :
    NoDupPairs (add_rule rules s t).1 := by
  cases hd : findDup rules s t with
  | some rid =>
    rw [add_rule_of_dup rules s t rid hd]
    exact h
  | none =>
    rw [add_rule_of_fresh rules s t hd]
    have hfind : rules.find? (fun p => p.2.source_umo == s && p.2.target_umo == t) = none := by
      unfold findDup at hd
      exact Option.map_eq_none'.mp hd
    have hall := List.find?_eq_none.mp hfind
    rw [NoDupPairs, List.pairwise_append]
    refine ⟨h, List.pairwise_singleton _ _, ?_⟩
    intro a ha b hb
    have hb2 : b = (toString (maxId rules + 1), (⟨s, t⟩ : Rule)) := by simpa using hb
    subst hb2
    have := hall a ha
    simp only [Bool.and_eq_true, beq_iff_eq] at this
    tauto

theorem runAdds_preserves_noDup (reqs : List (String × String)) : ∀ rules : Rules,
    NoDupPairs rules → NoDupPairs (runAdds rules reqs).1 := by
  induction reqs with
  | nil =>
    intro rules h
    exact h
  | cons req reqs ih =>
    intro rules h
    obtain ⟨s, t⟩ := req
    have hpres := add_rule_preserves_noDup rules s t h
    cases hstep : add_rule rules s t with
    | mk r2 res =>
      rw [hstep] at hpres
      cases res with
      | error e => simpa [runAdds, hstep] using ih r2 hpres
      | ok rid => simpa [runAdds, hstep] using ih r2 hpres

/-- C5: starting from the empty store, any sequence of `add_rule` calls
leaves the rule collection free of duplicate (source, target) pairs, and
an `add_rule` whose (source, target) pair already exists raises Conflict
and leaves the collection exactly as it was. -/
theorem claim_C5 :
    (∀ reqs : List (String × String), NoDupPairs (runAdds [] reqs).1) ∧
    (∀ rules s t, (∃ e ∈ rules, e.2.source_umo = s ∧ e.2.target_umo = t) →
      (add_rule rules s t).1 = rules ∧
      ∃ rid, (add_rule rules s t).2 = Except.error (StoreErr.conflict rid)) := by
  constructor
  · intro reqs
    exact runAdds_preserves_noDup reqs [] (List.Pairwise.nil)
  · intro rules s t h
    obtain ⟨rid, hrid⟩ := findDup_eq_some rules s t h
    rw [add_rule_of_dup rules s t rid hrid]
    exact ⟨rfl, rid, rfl⟩

/-- C5 witness: re-adding the pair ("A", "B") leaves the store unchanged. -/
theorem claim_C5_witness :
    (add_rule [("1", ⟨"A", "B"⟩)] "A" "B").1 = [("1", ⟨"A", "B"⟩)] :=
  (claim_C5.2 [("1", ⟨"A", "B"⟩)] "A" "B"
    ⟨("1", ⟨"A", "B"⟩), List.mem_singleton.mpr rfl, rfl, rfl⟩).1

/-! ### Decimal representation: `str(n)` round-trips through `int` -/

/-- The decimal digit characters of `n`, most significant first — the
character list `Nat.toDigits 10` (hence `str(n)`) produces. -/
def decChars (n : Nat) : List Char :=
  if n < 10 then [Nat.digitChar n]
  else decChars (n / 10) ++ [Nat.digitChar (n % 10)]
termination_by n
decreasing_by
  exact Nat.div_lt_self (by omega) (by omega)

theorem toDigitsCore_eq_decChars :
    ∀ fuel n ds, n < fuel → Nat.toDigitsCore 10 fuel n ds = decChars n ++ ds := by
  intro fuel
  induction fuel with
  | zero =>
    intro n ds h
    omega
  | succ fuel ih =>
    intro n ds h
    simp only [Nat.toDigitsCore]
    by_cases h0 : n / 10 = 0
    · rw [if_pos h0, decChars, if_pos (by omega)]
      have hmod : n % 10 = n := by omega
      rw [hmod]
      rfl
    · have hrhs : decChars n = decChars (n / 10) ++ [Nat.digitChar (n % 10)] := by
        conv_lhs => rw [decChars]
        rw [if_neg (by omega)]
      rw [if_neg h0, ih (n / 10) _ (by omega), hrhs]
      simp

theorem toDigits_eq_decChars (n : Nat) : Nat.toDigits 10 n = decChars n := by
  have := toDigitsCore_eq_decChars (n + 1) n [] (by omega)
  simpa [Nat.toDigits] using this

theorem digitChar_val : ∀ m, m < 10 → (Nat.digitChar m).toNat - '0'.toNat = m := by decide

theorem digitChar_isDigit : ∀ m, m < 10 → (Nat.digitChar m).isDigit = true := by decide

theorem charsNat_append_digit (l : List Char) (c : Char) :
    charsNat (l ++ [c]) = charsNat l * 10 + (c.toNat - '0'.toNat) := by
  simp [charsNat, List.foldl_append]

theorem charsNat_decChars (n : Nat) : charsNat (decChars n) = n := by
  induction n using Nat.strong_induction_on with
  | _ n ih =>
    rw [decChars]
    by_cases h : n < 10
    · rw [if_pos h]
      have : charsNat [Nat.digitChar n] = (Nat.digitChar n).toNat - '0'.toNat := by
        simp [charsNat]
      rw [this, digitChar_val n h]
    · rw [if_neg h, charsNat_append_digit,
        ih (n / 10) (Nat.div_lt_self (by omega) (by omega)),
        digitChar_val (n % 10) (by omega)]
      omega

theorem decChars_ne_nil (n : Nat) : decChars n ≠ [] := by
  rw [decChars]
  by_cases h : n < 10
  · rw [if_pos h]
    simp
  · rw [if_neg h]
    simp

theorem decChars_all_digits (n : Nat) : (decChars n).all (fun c => c.isDigit) = true := by
  induction n using Nat.strong_induction_on with
  | _ n ih =>
    rw [decChars]
    by_cases h : n < 10
    · rw [if_pos h]
      simp [digitChar_isDigit n h]
    · rw [if_neg h]
      rw [List.all_append]
      simp [ih (n / 10) (Nat.div_lt_self (by omega) (by omega)),
        digitChar_isDigit (n % 10) (by omega)]

theorem toString_data (n : Nat) : (toString n).data = Nat.toDigits 10 n := rfl

/-- `int(str(n)) = n`: the key assigned by `add_rule` parses back to the
number it was built from. -/
theorem keyNat_toString (n : Nat) : keyNat (toString n) = n := by
  unfold keyNat
  rw [toString_data, toDigits_eq_decChars]
  rw [if_pos ?_]
  · exact charsNat_decChars n
  · unfold isDigits
    rw [decChars_all_digits]
    simp [List.isEmpty_iff, decChars_ne_nil n]

/-! ### Rule-id assignment -/

theorem maxId_append (rules : Rules) (k : String) (r : Rule) :
    maxId (rules ++ [(k, r)]) = max (maxId rules) (keyNat k) := by
  unfold maxId
  rw [List.foldl_append]
  rfl

theorem add_rule_ok (rules : Rules) (s t : String) (r2 : Rules) (rid : String)
    (h : add_rule rules s t = (r2, Except.ok rid)) :
    rid = toString (maxId rules + 1) ∧ r2 = rules ++ [(rid, ⟨s, t⟩)] ∧
    keyNat rid = maxId rules + 1 ∧ maxId r2 = maxId rules + 1 := by
  cases hd : findDup rules s t with
  | some rid2 =>
    rw [add_rule_of_dup rules s t rid2 hd] at h
    exact absurd (congrArg Prod.snd h) (by simp)
  | none =>
    rw [add_rule_of_fresh rules s t hd] at h
    have h1 : rid = toString (maxId rules + 1) := by
      have := congrArg Prod.snd h
      simpa using this.symm
    have h2 : r2 = rules ++ [(toString (maxId rules + 1), ⟨s, t⟩)] := by
      have := congrArg Prod.fst h
      simpa using this.symm
    have hk : keyNat rid = maxId rules + 1 := by
      rw [h1, keyNat_toString]
    refine ⟨h1, by rw [h2, h1], hk, ?_⟩
    rw [h2, maxId_append, keyNat_toString]
    omega

theorem add_rule_error_fst (rules : Rules) (s t : String) (r2 : Rules) (e : StoreErr)
    (h : add_rule rules s t = (r2, Except.error e)) : r2 = rules := by
  cases hd : findDup rules s t with
  | some rid =>
    rw [add_rule_of_dup rules s t rid hd] at h
    exact (congrArg Prod.fst h).symm
  | none =>
    rw [add_rule_of_fresh rules s t hd] at h
    exact absurd (congrArg Prod.snd h) (by simp)

theorem runAdds_ids (reqs : List (String × String)) : ∀ rules : Rules,
    (∀ i ∈ (runAdds rules reqs).2, maxId rules < keyNat i) ∧
    List.Chain' (fun a b => keyNat a < keyNat b) (runAdds rules reqs).2 := by
  induction reqs with
  | nil =>
    intro rules
    simp [runAdds]
  | cons req reqs ih =>
    intro rules
    obtain ⟨s, t⟩ := req
    cases hstep : add_rule rules s t with
    | mk r2 res =>
      cases res with
      | error e =>
        have hr2 := add_rule_error_fst rules s t r2 e hstep
        simpa [runAdds, hstep, hr2] using ih rules
      | ok rid =>
        obtain ⟨-, -, hk, hmax⟩ := add_rule_ok rules s t r2 rid hstep
        obtain ⟨ih1, ih2⟩ := ih r2
        constructor
        · intro i hi
          simp only [runAdds, hstep] at hi
          rcases List.mem_cons.mp hi with rfl | hi2
          · omega
          · have := ih1 i hi2
            omega
        · simp only [runAdds, hstep]
          rw [List.chain'_cons']
          refine ⟨?_, ih2⟩
          intro b hb
          have := ih1 b (List.mem_of_mem_head? hb)
          omega

/-- C4 counterexample: ids are assigned as max existing numeric id + 1,
so deleting the rule that holds the maximum id makes a later `add_rule`
reuse it: from the empty store, adds assign "1" then "2"; after deleting
rule "2", the next add assigns "2" again. -/
theorem claim_C4_counterexample :
    (add_rule (add_rule [] "A" "B").1 "A" "C").2 = Except.ok "2" ∧
    (add_rule (delete_rule (add_rule (add_rule [] "A" "B").1 "A" "C").1 "2").1 "A" "D").2 =
      Except.ok "2" :=
  ⟨rfl, rfl⟩

/-- C4 as amended: every id assigned by `add_rule` is the decimal string
of (maximum existing numeric id) + 1, so the first add on an empty store
assigns "1" and ids are strictly increasing over any sequence of
successful adds without deletions; deleting the rule with the maximum id,
however, lets a later `add_rule` reuse a previously assigned id. -/
theorem claim_C4_amended :
    (∀ rules s t r2 rid, add_rule rules s t = (r2, Except.ok rid) →
      rid = toString (maxId rules + 1)) ∧
    (∀ s t, (add_rule [] s t).2 = Except.ok "1") ∧
    (∀ reqs, List.Chain' (fun a b => keyNat a < keyNat b) (runAdds [] reqs).2) := by
  refine ⟨?_, ?_, ?_⟩
  · intro rules s t r2 rid h
    exact (add_rule_ok rules s t r2 rid h).1
  · intro s t
    rfl
  · intro reqs
    exact (runAdds_ids reqs []).2

/-- C4 amended witness: the first add on the empty store is assigned the
id "1" = str(max existing + 1). -/
theorem claim_C4_amended_witness :
    "1" = toString (maxId ([] : Rules) + 1) :=
  claim_C4_amended.1 [] "A" "B" [("1", ⟨"A", "B"⟩)] "1" rfl

end MsgTransfer
